import Mathlib

/-!
Verification of the fate scheduler and task-execution engine against its
natural-language specification. Python source functions are shallowly
embedded as Lean definitions: pure helpers become Lean functions, the
stateful `poll_` loop becomes explicit state passing over a task record,
OS effects (signals, file writes) are recorded as explicit outputs, and
exceptions become `Except` or marker constructors.
-/

/-! ### Descriptor duplication: `SpawnedTask._dup_fd_` -/

/-- Observable outcome of `SpawnedTask._dup_fd_(src, dst)`: either the
call returns without effect, raises `ValueError`, or performs
`os.dup2(src, dst, inheritable=True)`. -/
inductive DupFdResult where
  | noop : DupFdResult
  | valueError : DupFdResult
  | dup2 (src dst : Nat) (inheritable : Bool) : DupFdResult
deriving DecidableEq

/-- Embedding of `SpawnedTask._dup_fd_` (invoked_task.py): return early
when `src == dst`; raise `ValueError` when `dst < 3`; otherwise duplicate
`src` onto `dst` with the inheritable flag set. -/
def dupFd (src dst : Nat) : DupFdResult :=
  if src = dst then .noop
  else if dst < 3 then .valueError
  else .dup2 src dst true

/-! ### Return-code bucketing: `Executor.CommandStatus.status` -/

/-- The `CommandStatus` enum members of cli/base/execution.py. -/
inductive CommandStatus where
  | OK : CommandStatus
  | Retry : CommandStatus
  | Error : CommandStatus
deriving DecidableEq

/-- Python enum lookup `cls(value)`: the members' values are `OK = 0`,
`Retry = 42`, `Error = -1`; any other value raises (here: `none`). -/
def CommandStatus.ofCode (code : Int) : Option CommandStatus :=
  if code = 0 then some .OK
  else if code = 42 then some .Retry
  else if code = -1 then some .Error
  else none

/-- Embedding of `Executor.CommandStatus.status`: enum lookup; on
`ValueError`, return `Error` for positive codes and re-raise otherwise. -/
def commandStatus (code : Int) : Except Unit CommandStatus :=
  match CommandStatus.ofCode code with
  | some s => .ok s
  | none => if 0 < code then .ok .Error else .error ()

/-! ### `BufferedInput`: non-blocking chunked writer -/

/-- State of a `BufferedInput` (invoked_task.py) together with a model of
its file: `written` records every byte passed to `file.write`, and
`fileClosed` records whether `file.close()` has run (a `BrokenPipeError`
raised by the close is swallowed, so closing always succeeds). -/
structure BufferedInput where
  data : List Char
  buffersize : Nat
  position : Nat
  written : List Char
  fileClosed : Bool
deriving DecidableEq

/-- A fresh `BufferedInput(data, file, buffersize)`: `position` starts
at 0, nothing written, file open. -/
def BufferedInput.make (data : List Char) (buffersize : Nat) : BufferedInput :=
  { data := data, buffersize := buffersize, position := 0, written := [], fileClosed := false }

/-- Python slice `l[a:b]` for `0 ≤ a, b` (clamped; empty when `a ≥ b`). -/
def pySlice (l : List Char) (a b : Nat) : List Char :=
  (l.drop a).take (b - a)

/-- Embedding of the `finished` property: the file has been closed. -/
def BufferedInput.finished (s : BufferedInput) : Bool :=
  s.fileClosed

/-- Embedding of `BufferedInput.send`, exactly as written in the source:
the chunk is `self.data[self.position:self.buffersize]` (note: the slice
stop is `buffersize`, not `position + buffersize`); the position advances
by `buffersize` clamped to `datasize`; the file is closed when the
position reaches `datasize`. -/
def BufferedInput.send (s : BufferedInput) : BufferedInput :=
  if s.finished then s
  else
    let chunk := pySlice s.data s.position s.buffersize
    let s1 := { s with written := s.written ++ chunk }
    let pos := min (s1.position + s1.buffersize) s1.data.length
    let s2 := { s1 with position := pos }
    if pos = s2.data.length then { s2 with fileClosed := true } else s2

/-! ### Theorems: C10, C4, C3 -/

/-- C10 counterexample: the claim asserts `_dup_fd_` raises `ValueError`
for every `dst < 3`, but `_dup_fd_(1, 1)` returns without raising because
the `src == dst` early return precedes the standard-descriptor check. -/
theorem dupFd_noop_counterexample :
    dupFd 1 1 = DupFdResult.noop ∧ dupFd 1 1 ≠ DupFdResult.valueError := by
  decide

/-- C10 (amended): `_dup_fd_` is a no-op when `src == dst`; for `src ≠ dst`
it raises `ValueError` when `dst < 3` and otherwise duplicates `src` onto
`dst` with the inheritable flag set; in particular no duplication ever
targets a standard file descriptor 0-2, so the child's state descriptors
can never clobber stdin/stdout/stderr. -/
theorem dupFd_characterization (src dst : Nat) :
    (src = dst → dupFd src dst = DupFdResult.noop) ∧
    (src ≠ dst → dst < 3 → dupFd src dst = DupFdResult.valueError) ∧
    (src ≠ dst → 3 ≤ dst → dupFd src dst = DupFdResult.dup2 src dst true) ∧
    (∀ s d inh, dupFd src dst = DupFdResult.dup2 s d inh → 3 ≤ d ∧ inh = true) := by
  refine ⟨fun h => ?_, fun h hlt => ?_, fun h hge => ?_, fun s d inh heq => ?_⟩
  · simp [dupFd, h]
  · simp [dupFd, h, hlt]
  · simp [dupFd, h, Nat.not_lt.mpr hge]
  · unfold dupFd at heq
    by_cases h1 : src = dst
    · simp [h1] at heq
    · by_cases h2 : dst < 3
      · simp [h1, h2] at heq
      · simp [h1, h2] at heq
        obtain ⟨_, h4, h5⟩ := heq
        exact ⟨h4 ▸ Nat.not_lt.mp h2, h5⟩

/-- C10 witness: concrete instances of the characterization. -/
theorem dupFd_characterization_witness :
    dupFd 1 0 = DupFdResult.valueError ∧ dupFd 5 4 = DupFdResult.dup2 5 4 true :=
  ⟨(dupFd_characterization 1 0).2.1 (by decide) (by decide),
   (dupFd_characterization 5 4).2.2.1 (by decide) (by decide)⟩

/-- C4 counterexample: the claim asserts every negative return code maps
to `Error`, but `CommandStatus.status(-9)` re-raises `ValueError` (only
`-1`, the `Error` member's own value, maps to `Error`). -/
theorem commandStatus_negative_counterexample :
    commandStatus (-9) = Except.error () ∧
    commandStatus (-9) ≠ Except.ok CommandStatus.Error := by
  refine ⟨?_, ?_⟩
  · simp [commandStatus, CommandStatus.ofCode]
  · intro h
    simp [commandStatus, CommandStatus.ofCode] at h

/-- C4 (amended): the bucketing function maps 0 to OK, 42 to Retry, every
other positive code and -1 to Error, and raises `ValueError` for every
negative code other than -1. -/
theorem commandStatus_buckets (code : Int) :
    commandStatus code =
      (if code = 0 then Except.ok CommandStatus.OK
       else if code = 42 then Except.ok CommandStatus.Retry
       else if 0 < code ∨ code = -1 then Except.ok CommandStatus.Error
       else Except.error ()) := by
  unfold commandStatus CommandStatus.ofCode
  by_cases h0 : code = 0
  · simp [h0]
  · by_cases h42 : code = 42
    · simp [h0, h42]
    · by_cases hneg : code = -1
      · simp [h0, h42, hneg]
      · by_cases hpos : 0 < code
        · simp [h0, h42, hneg, hpos]
        · simp [h0, h42, hneg, hpos]

/-- C3: evaluation of the code at the failing input
`BufferedInput(data=b'abc', file, buffersize=2)`. After
`ceil(3 / 2) = 2` calls to `send`, the position has reached the data
length and the descriptor has been closed, yet only the first
`buffersize` bytes `'ab'` were ever written: the second call's chunk is
the empty slice `data[2:2]`. A third `send` is a no-op. The claim (and
the class's documented purpose of advancing through `data` in chunks)
requires the entire data to be written. -/
theorem bufferedInput_send_drops_tail :
    (((BufferedInput.make ['a', 'b', 'c'] 2).send).send).fileClosed = true ∧
    (((BufferedInput.make ['a', 'b', 'c'] 2).send).send).position = 3 ∧
    (((BufferedInput.make ['a', 'b', 'c'] 2).send).send).written = ['a', 'b'] ∧
    (((BufferedInput.make ['a', 'b', 'c'] 2).send).send).written ≠
      (BufferedInput.make ['a', 'b', 'c'] 2).data ∧
    ((((BufferedInput.make ['a', 'b', 'c'] 2).send).send).send) =
      (((BufferedInput.make ['a', 'b', 'c'] 2).send).send) := by
  decide

/-! ### `SpawnedTask`: spawn, poll, timeout signals -/

/-- Signals sent by the supervisor on timeout. -/
inductive Sig where
  | SIGTERM : Sig
  | SIGKILL : Sig
deriving DecidableEq

/-- Target of a signal delivery in `SpawnedTask._signal`: either the
whole process group (via `os.killpg`) or the child process alone (via
`Popen.send_signal`). -/
inductive SigTarget where
  | group (pgid : Nat) : SigTarget
  | process (pid : Nat) : SigTarget
deriving DecidableEq

/-- Environment of a single `poll_` call: the wall clock, the results of
the two `self._process_.poll()` calls made during the invocation, the
child's current process-group id as returned by `os.getpgid`, and the
bytes available on the stderr and stateout pipes. -/
structure PollEnv where
  now : Nat
  poll1 : Option Int
  poll2 : Option Int
  pgidOfChild : Nat
  stderrChunk : List Char
  stateoutChunk : List Char

/-- State of a `SpawnedTask` as mutated by `poll_`, together with models
of its observable effects: `stdoutCloseCount` counts calls to
`self.stdout_.close()`, and `persistedState` is the content passed to
`self._state_.write` (none when never written). -/
structure SpawnedTask where
  timeout : Option Nat
  started : Nat
  pid : Nat
  terminated : Option Nat
  killed : Option Nat
  ended : Option Nat
  stdin : BufferedInput
  statein : BufferedInput
  stderrData : List Char
  stateoutData : List Char
  stdoutCloseCount : Nat
  persistedState : Option (List Char)

/-- Embedding of `SpawnedTask.expires_`: `started + timeout` when a
timeout is configured. -/
def SpawnedTask.expires (task : SpawnedTask) : Option Nat :=
  task.timeout.map (fun t => task.started + t)

/-- Embedding of `SpawnedTask.expired_` at a given instant:
`expires is not None and expires <= time.time()`. -/
def SpawnedTask.expiredAt (task : SpawnedTask) (now : Nat) : Bool :=
  match task.expires with
  | none => false
  | some e => decide (e ≤ now)

/-- Embedding of the dispatch inside `SpawnedTask._signal`: the whole
process group when the child is still its group's leader
(`os.getpgid(pid) == pid`), otherwise the child process alone. -/
def signalTarget (pid pgidOfChild : Nat) : SigTarget :=
  if pgidOfChild = pid then .group pid else .process pid

/-- Embedding of `SpawnedTask.poll_`. Returns the task state after the
call, the signals delivered during the call, and the call's return value
(the child's exit code, if any). Follows the source line by line: the
timeout branch signals TERM on the first expiry observation while the
process still runs and KILL thereafter; then the return code is read;
then the stdin/statein writers and stderr/stateout readers run; then, on
the first observation of exit, `ended` is set, stdout is closed, and the
stateout buffer is persisted exactly when the return code is 0. -/
def SpawnedTask.poll (task : SpawnedTask) (env : PollEnv) :
    SpawnedTask × List (SigTarget × Sig) × Option Int :=
  let step1 :=
    if task.expiredAt env.now && env.poll1.isNone then
      if task.terminated.isNone then
        ({ task with terminated := some env.now },
         [(signalTarget task.pid env.pgidOfChild, Sig.SIGTERM)])
      else
        ({ task with killed := some env.now },
         [(signalTarget task.pid env.pgidOfChild, Sig.SIGKILL)])
    else (task, [])
  let task1 := step1.1
  let returncode := env.poll2
  let task2 := { task1 with
    stdin := task1.stdin.send,
    statein := task1.statein.send,
    stderrData := task1.stderrData ++ env.stderrChunk,
    stateoutData := task1.stateoutData ++ env.stateoutChunk }
  let task3 :=
    if returncode.isSome && task2.ended.isNone then
      { task2 with
        ended := some env.now,
        stdoutCloseCount := task2.stdoutCloseCount + 1,
        persistedState :=
          if returncode == some 0 then some task2.stateoutData else task2.persistedState }
    else task2
  (task3, step1.2, returncode)

/-- Initial `SpawnedTask` state as produced by `spawn` / `_spawn_` /
`_popen`: no timestamps recorded, stdout reader running (never closed),
nothing persisted, and one priming `send` already issued on each of the
stdin and statein writers. -/
def SpawnedTask.spawn (timeout : Option Nat) (started pid : Nat)
    (param stateBytes : List Char) (bufsize : Nat) : SpawnedTask :=
  { timeout := timeout
    started := started
    pid := pid
    terminated := none
    killed := none
    ended := none
    stdin := (BufferedInput.make param bufsize).send
    statein := (BufferedInput.make stateBytes bufsize).send
    stderrData := []
    stateoutData := []
    stdoutCloseCount := 0
    persistedState := none }

/-- Iterated polling: runs `poll_` once per environment, threading the
task state; returns the final state and the return value of the last
call (`acc` holds the return value of the call before the remaining
ones). -/
def SpawnedTask.runPoll (task : SpawnedTask) (acc : Option Int) :
    List PollEnv → SpawnedTask × Option Int
  | [] => (task, acc)
  | env :: rest =>
    let step := task.poll env
    SpawnedTask.runPoll step.1 step.2.2 rest

/-- Well-formedness of a single poll environment given the child's exit
status `cur` observed so far: once the child has been reaped with code
`c`, both `waitpid` probes keep returning `c`; and within one call the
second probe agrees with a successful first probe (a process cannot
un-exit). -/
def envOk (cur : Option Int) (env : PollEnv) : Prop :=
  (cur ≠ none → env.poll1 = cur ∧ env.poll2 = cur) ∧
  (env.poll1 ≠ none → env.poll2 = env.poll1)

/-- Well-formedness of a poll-environment trace, threading the observed
exit status. -/
def envsOk : Option Int → List PollEnv → Prop
  | _, [] => True
  | cur, env :: rest => envOk cur env ∧ envsOk env.poll2 rest

/-- Invariant of the poll loop tied to the exit status observed so far:
before exit the task has no `ended` timestamp, stdout open, nothing
persisted; after exit with code `c` it has an `ended` timestamp, stdout
closed exactly once, and state persisted iff `c = 0`. -/
def pollInv (cur : Option Int) (task : SpawnedTask) : Prop :=
  match cur with
  | none =>
      task.ended = none ∧ task.stdoutCloseCount = 0 ∧ task.persistedState = none
  | some c =>
      task.ended ≠ none ∧ task.stdoutCloseCount = 1 ∧ (task.persistedState ≠ none ↔ c = 0)

/-- One `poll_` call preserves the invariant and returns the second
probe's value. -/
theorem poll_step_inv (cur : Option Int) (task : SpawnedTask) (env : PollEnv)
    (hok : envOk cur env) (hinv : pollInv cur task) :
    pollInv env.poll2 (task.poll env).1 ∧ (task.poll env).2.2 = env.poll2 := by
  refine ⟨?_, rfl⟩
  cases hcur : cur with
  | some c =>
      rw [hcur] at hok hinv
      obtain ⟨hp1, hp2⟩ := hok.1 (by simp)
      obtain ⟨he, hc, hpers⟩ := hinv
      obtain ⟨e, hee⟩ := Option.ne_none_iff_exists'.mp he
      rw [hp2]
      simp [SpawnedTask.poll, hp1, hp2, hee, hc, hpers, pollInv]
  | none =>
      rw [hcur] at hinv
      obtain ⟨he, hc, hpers⟩ := hinv
      cases hp2 : env.poll2 with
      | none =>
          cases hexp : (task.expiredAt env.now && env.poll1.isNone)
          · simp [SpawnedTask.poll, hexp, hp2, pollInv, he, hc, hpers]
          · cases hterm : task.terminated.isNone
            · simp [SpawnedTask.poll, hexp, hterm, hp2, pollInv, he, hc, hpers]
            · simp [SpawnedTask.poll, hexp, hterm, hp2, pollInv, he, hc, hpers]
      | some c =>
          cases hexp : (task.expiredAt env.now && env.poll1.isNone)
          · by_cases hc0 : c = 0 <;>
              simp [SpawnedTask.poll, hexp, hp2, pollInv, he, hc, hpers, hc0]
          · cases hterm : task.terminated.isNone <;> by_cases hc0 : c = 0 <;>
              simp [SpawnedTask.poll, hexp, hterm, hp2, pollInv, he, hc, hpers, hc0]

/-- The poll-loop invariant holds after any well-formed trace of `poll_`
calls, relative to the return value of the last call. -/
theorem runPoll_inv (envs : List PollEnv) :
    ∀ (cur : Option Int) (task : SpawnedTask), envsOk cur envs → pollInv cur task →
      pollInv (task.runPoll cur envs).2 (task.runPoll cur envs).1 := by
  induction envs with
  | nil =>
      intro cur task _ hinv
      exact hinv
  | cons env rest ih =>
      intro cur task hok hinv
      obtain ⟨h1, h2⟩ := hok
      have hstep := poll_step_inv cur task env h1 hinv
      exact ih env.poll2 (task.poll env).1 h2 hstep.1

/-- C1: for every `SpawnedTask`, whenever `ready_()` returns true (a
`poll_` call returned a non-null exit code) after any well-formed
sequence of polls since spawn: the `ended` timestamp is recorded,
`stdout` has been closed exactly once (on the first observation of
exit), and the persisted task state has been updated from the stateout
buffer if and only if the return code equals 0. -/
theorem spawnedTask_ready_invariant (timeout : Option Nat) (started pid : Nat)
    (param stateBytes : List Char) (bufsize : Nat) (envs : List PollEnv) (rc : Int)
    (hwf : envsOk none envs)
    (hready :
      ((SpawnedTask.spawn timeout started pid param stateBytes bufsize).runPoll none envs).2
        = some rc) :
    ((SpawnedTask.spawn timeout started pid param stateBytes bufsize).runPoll
        none envs).1.ended ≠ none ∧
    ((SpawnedTask.spawn timeout started pid param stateBytes bufsize).runPoll
        none envs).1.stdoutCloseCount = 1 ∧
    (((SpawnedTask.spawn timeout started pid param stateBytes bufsize).runPoll
        none envs).1.persistedState ≠ none ↔ rc = 0) := by
  have hinit : pollInv none (SpawnedTask.spawn timeout started pid param stateBytes bufsize) := by
    simp [pollInv, SpawnedTask.spawn]
  have h := runPoll_inv envs none _ hwf hinit
  rw [hready] at h
  exact h

/-- C1 witness: a task spawned without timeout, polled once with the
child already exited with code 0, is ready with stdout closed once and
state persisted. -/
theorem spawnedTask_ready_invariant_witness :
    ((SpawnedTask.spawn none 0 7 [] [] 1).runPoll none
        [⟨5, some 0, some 0, 7, [], ['s']⟩]).1.stdoutCloseCount = 1 ∧
    ((SpawnedTask.spawn none 0 7 [] [] 1).runPoll none
        [⟨5, some 0, some 0, 7, [], ['s']⟩]).1.persistedState ≠ none := by
  have h := spawnedTask_ready_invariant none 0 7 [] [] 1
      [⟨5, some 0, some 0, 7, [], ['s']⟩] 0
      ⟨⟨fun hno => absurd rfl hno, fun _ => rfl⟩, trivial⟩ rfl
  exact ⟨h.2.1, h.2.2.mpr rfl⟩

/-- C2: for a task with a configured timeout, a `poll_` call at or after
the expiry instant while the process still runs sends SIGTERM and
records `terminated_` if no SIGTERM was sent before, and otherwise sends
SIGKILL and records `killed_`; either signal goes to the whole process
group when the child is still its group's leader and only to the child
process otherwise. -/
theorem spawnedTask_timeout_signals (task : SpawnedTask) (env : PollEnv) (T : Nat)
    (htimeout : task.timeout = some T)
    (hexpired : task.started + T ≤ env.now)
    (hrunning : env.poll1 = none) :
    (task.terminated = none →
      (task.poll env).2.1 = [(signalTarget task.pid env.pgidOfChild, Sig.SIGTERM)] ∧
      (task.poll env).1.terminated = some env.now) ∧
    (task.terminated ≠ none →
      (task.poll env).2.1 = [(signalTarget task.pid env.pgidOfChild, Sig.SIGKILL)] ∧
      (task.poll env).1.killed = some env.now) ∧
    (env.pgidOfChild = task.pid →
      signalTarget task.pid env.pgidOfChild = SigTarget.group task.pid) ∧
    (env.pgidOfChild ≠ task.pid →
      signalTarget task.pid env.pgidOfChild = SigTarget.process task.pid) := by
  have hexp : task.expiredAt env.now = true := by
    simp [SpawnedTask.expiredAt, SpawnedTask.expires, htimeout]
    exact hexpired
  refine ⟨fun hterm => ⟨?_, ?_⟩, fun hterm => ⟨?_, ?_⟩, fun h => ?_, fun h => ?_⟩
  · simp [SpawnedTask.poll, hexp, hrunning, hterm]
  · simp [SpawnedTask.poll, hexp, hrunning, hterm, apply_ite SpawnedTask.terminated]
  · simp [SpawnedTask.poll, hexp, hrunning, Option.isNone_iff_eq_none, hterm]
  · simp [SpawnedTask.poll, hexp, hrunning, Option.isNone_iff_eq_none, hterm,
      apply_ite SpawnedTask.killed]
  · simp [signalTarget, h]
  · simp [signalTarget, h]

/-- C2 witness: a task with timeout 3 started at 10, polled at 13 while
still running, gets SIGTERM to its group; the next poll at 14 (child
no longer group leader) gets SIGKILL to the process alone. -/
theorem spawnedTask_timeout_signals_witness :
    ((SpawnedTask.spawn (some 3) 10 9 [] [] 1).poll ⟨13, none, none, 9, [], []⟩).2.1 =
      [(SigTarget.group 9, Sig.SIGTERM)] ∧
    ((((SpawnedTask.spawn (some 3) 10 9 [] [] 1).poll ⟨13, none, none, 9, [], []⟩).1).poll
        ⟨14, none, none, 4, [], []⟩).2.1 =
      [(SigTarget.process 9, Sig.SIGKILL)] := by
  have h1 := spawnedTask_timeout_signals (SpawnedTask.spawn (some 3) 10 9 [] [] 1)
      ⟨13, none, none, 9, [], []⟩ 3 rfl (by decide) rfl
  have h2 := spawnedTask_timeout_signals
      ((SpawnedTask.spawn (some 3) 10 9 [] [] 1).poll ⟨13, none, none, 9, [], []⟩).1
      ⟨14, none, none, 4, [], []⟩ 3 rfl (by decide) rfl
  refine ⟨?_, ?_⟩
  · rw [(h1.1 rfl).1]
    decide
  · rw [(h2.2.1 (by decide)).1]
    decide

/-! ### `TaskScheduler`: check state, due tasks, `if` guard -/

/-- The check file of the state directory, modelled by its mtime: `none`
when the file does not exist. -/
structure CheckFS where
  checkMtime : Option Nat
deriving DecidableEq

/-- Embedding of `TaskScheduler._check_state_`: `os.stat` yields the
previous mtime or `FileNotFoundError`; with `update`, the file is
touched if absent and its times are set to `time_check`. -/
def checkState (fs : CheckFS) (timeCheck : Nat) (update : Bool) : Option Nat × CheckFS :=
  let lastCheck := fs.checkMtime
  if update then (lastCheck, { checkMtime := some timeCheck }) else (lastCheck, fs)

/-- A `ConfBracketError` (conf/error.py): carries the offending
configuration path and the `evaluation` attribute that the scheduler
falls back to. -/
structure BracketErr where
  path : String
  evaluation : Bool
deriving DecidableEq

/-- A task as consulted by `TaskScheduler._iter_tasks_due_`: its name,
its `scheduled_(last_check, time_check)` schedule oracle, and its `if_`
guard, which either evaluates to a Boolean or raises `ConfBracketError`. -/
structure SchedTask where
  name : String
  scheduledIn : Nat → Nat → Bool
  guard : Except BracketErr Bool

/-- Log lines emitted by `_iter_tasks_due_`. -/
inductive SchedLog where
  | warningBracket (taskName : String) (path : String) : SchedLog
  | infoSkipped (taskName : String) : SchedLog
deriving DecidableEq

/-- Embedding of the loop body of `TaskScheduler._iter_tasks_due_` once
`last_check` is known to be non-null: for each task in configuration
order, if it is scheduled in the window, evaluate its guard — on
`ConfBracketError` log a warning and fall back to the error's
`evaluation` — and yield the task when the guard is truthy, otherwise
log the skip. -/
def iterTasksDueFrom (lc timeCheck : Nat) : List SchedTask → List SchedTask × List SchedLog
  | [] => ([], [])
  | task :: rest =>
    let tail := iterTasksDueFrom lc timeCheck rest
    if task.scheduledIn lc timeCheck then
      let eval :=
        match task.guard with
        | .ok b => (b, ([] : List SchedLog))
        | .error e => (e.evaluation, [SchedLog.warningBracket task.name e.path])
      if eval.1 then (task :: tail.1, eval.2 ++ tail.2)
      else (tail.1, eval.2 ++ [SchedLog.infoSkipped task.name] ++ tail.2)
    else tail

/-- Embedding of `TaskScheduler._iter_tasks_due_`: when `last_check` is
null (first run) the generator returns immediately with no tasks. -/
def iterTasksDue (tasks : List SchedTask) (lastCheck : Option Nat) (timeCheck : Nat) :
    List SchedTask × List SchedLog :=
  match lastCheck with
  | none => ([], [])
  | some lc => iterTasksDueFrom lc timeCheck tasks

/-- Embedding of `TaskScheduler.collect_tasks` for a fresh check: reading
the `last_check` property runs `_check_state_(update=True)`, which
persists `time_check` as the check file's mtime, and the due tasks are
generated from `_iter_tasks_due_`. -/
def collectTasks (tasks : List SchedTask) (fs : CheckFS) (timeCheck : Nat) :
    List SchedTask × List SchedLog × CheckFS :=
  let state := checkState fs timeCheck true
  let due := iterTasksDue tasks state.1 timeCheck
  (due.1, due.2, state.2)

/-- C5: on a first run (check file absent, so `last_check` is null),
`collect_tasks` yields no scheduled tasks whatever the configured task
set, and the captured `time_check` is nonetheless persisted as the new
check-file mtime, giving the next run a reference point. -/
theorem collectTasks_first_run (tasks : List SchedTask) (fs : CheckFS) (timeCheck : Nat)
    (h : fs.checkMtime = none) :
    (collectTasks tasks fs timeCheck).1 = [] ∧
    (collectTasks tasks fs timeCheck).2.2.checkMtime = some timeCheck := by
  simp [collectTasks, checkState, iterTasksDue, h]

/-- C5 witness: a concrete always-scheduled task and an absent check
file. -/
theorem collectTasks_first_run_witness :
    (collectTasks [⟨"t", fun _ _ => true, Except.ok true⟩] ⟨none⟩ 99).1 = [] ∧
    (collectTasks [⟨"t", fun _ _ => true, Except.ok true⟩] ⟨none⟩ 99).2.2.checkMtime = some 99 :=
  collectTasks_first_run [⟨"t", fun _ _ => true, Except.ok true⟩] ⟨none⟩ 99 rfl

/-- Modelled from the spec: the bracketed-expression evaluator behind
`task.if_` (fate's configuration template machinery, which is not under
`src/` — only `ConfBracketError` itself and the scheduler's handling
are) reports a bracketed-expression syntax error as
`(false, ConfBracketError)`: the raised error's `evaluation` attribute,
which `_iter_tasks_due_` adopts as the guard's value, is false. -/
def specBracketGuard (path : String) : Except BracketErr Bool :=
  .error { path := path, evaluation := false }

/-- C8: a task whose `if` guard raises `ConfBracketError` (whose
evaluation, per the spec, is false) is never yielded as scheduled, and —
when the task was otherwise due — the scheduler logs the warning. -/
theorem bracket_error_task_skipped (tasks : List SchedTask) (lc tc : Nat)
    (task : SchedTask) (path : String)
    (hguard : task.guard = specBracketGuard path) :
    task ∉ (iterTasksDue tasks (some lc) tc).1 ∧
    (task ∈ tasks → task.scheduledIn lc tc = true →
      SchedLog.warningBracket task.name path ∈ (iterTasksDue tasks (some lc) tc).2) := by
  induction tasks with
  | nil =>
      refine ⟨by simp [iterTasksDue, iterTasksDueFrom], by simp⟩
  | cons hd rest ih =>
      simp only [iterTasksDue] at ih ⊢
      refine ⟨?_, ?_⟩
      · intro hmem
        by_cases hsched : hd.scheduledIn lc tc
        · simp only [iterTasksDueFrom, hsched, if_true] at hmem
          cases hg : hd.guard with
          | ok b =>
              cases b with
              | true =>
                  simp only [hg] at hmem
                  cases hmem with
                  | head =>
                      rw [hguard] at hg
                      simp [specBracketGuard] at hg
                  | tail b hmem2 =>
                      exact ih.1 hmem2
              | false =>
                  simp only [hg] at hmem
                  exact ih.1 hmem
          | error e =>
              cases hev : e.evaluation with
              | true =>
                  simp only [hg, hev] at hmem
                  cases hmem with
                  | head =>
                      rw [hguard] at hg
                      simp only [specBracketGuard, Except.error.injEq] at hg
                      rw [← hg] at hev
                      simp at hev
                  | tail b hmem2 =>
                      exact ih.1 hmem2
              | false =>
                  simp only [hg, hev] at hmem
                  exact ih.1 hmem
        · simp only [iterTasksDueFrom, hsched, if_false] at hmem
          exact ih.1 hmem
      · intro hmem hsched
        simp only [List.mem_cons] at hmem
        rcases hmem with heq | hmem
        · subst heq
          simp only [iterTasksDueFrom, hsched, if_true, hguard, specBracketGuard]
          simp
        · have htail := ih.2 hmem hsched
          by_cases hs : hd.scheduledIn lc tc
          · simp only [iterTasksDueFrom, hs, if_true]
            cases hg : hd.guard with
            | ok b => cases b <;> simp [hg, htail]
            | error e => cases hev : e.evaluation <;> simp [hg, hev, htail]
          · simp only [iterTasksDueFrom, hs, if_false]
            exact htail

/-- C8 witness: a due task with a bracket-error guard is not yielded and
the warning is logged. -/
theorem bracket_error_task_skipped_witness :
    (⟨"bad", fun _ _ => true, specBracketGuard "task.bad.if"⟩ : SchedTask) ∉
      (iterTasksDue [⟨"bad", fun _ _ => true, specBracketGuard "task.bad.if"⟩] (some 1) 2).1 ∧
    SchedLog.warningBracket "bad" "task.bad.if" ∈
      (iterTasksDue [⟨"bad", fun _ _ => true, specBracketGuard "task.bad.if"⟩] (some 1) 2).2 := by
  have h := bracket_error_task_skipped
      [⟨"bad", fun _ _ => true, specBracketGuard "task.bad.if"⟩] 1 2
      ⟨"bad", fun _ _ => true, specBracketGuard "task.bad.if"⟩ "task.bad.if" rfl
  exact ⟨h.1, h.2 (by simp) rfl⟩

/-! ### `TaskScheduler.next_check` -/

/-- A task as consulted by `TaskScheduler._next_check_tasks_`, described
by its schedule's next-fire oracle: `nextAfter t` is the smallest instant
strictly after `t` at which the task's schedule expression fires within a
one-year search window, or `none` when there is no such instant. -/
structure CheckTask where
  name : String
  nextAfter : Nat → Option Nat

/-- Modelled from the spec: `task.schedule_next_` (fate's configuration
schedule machinery, which is not under `src/` — only its caller
`TaskScheduler._next_check_tasks_` is). Per the spec's ScheduleOracle,
`nextAfter(spec, t)` is the smallest instant `> t` at which the
expression fires, bounded by a 1-year window, null if none; the `t1` and
`default` arguments mirror the scheduler's call: an upper search bound
and the value returned when no firing below that bound is found. -/
def scheduleNext (nextAfter : Nat → Option Nat) (t0 : Nat) (t1 dflt : Option Nat) : Option Nat :=
  match nextAfter t0 with
  | none => dflt
  | some t =>
    match t1 with
    | none => some t
    | some b => if t < b then some t else dflt

/-- Embedding of `TaskScheduler._next_check_tasks_`: fold over the
configured tasks, passing the best-so-far instant as both the bound and
the default of `schedule_next_`. -/
def nextCheckTasks (tasks : List CheckTask) (timeCheck : Nat) : Option Nat :=
  tasks.foldl (fun acc task => scheduleNext task.nextAfter timeCheck acc acc) none

/-- Embedding of `TaskScheduler.next_max`: one year in seconds. -/
def nextMax : Nat := 60 * 60 * 24 * 365

/-- Embedding of `TaskScheduler.next_check`:
`self._next_check_tasks_ or self._next_check_max_`, with Python
falsiness (a null — or zero — fold result falls back to
`time_check + next_max`). -/
def nextCheck (tasks : List CheckTask) (timeCheck : Nat) : Nat :=
  match nextCheckTasks tasks timeCheck with
  | none => timeCheck + nextMax
  | some v => if v = 0 then timeCheck + nextMax else v

/-- Minimum of two optional instants, absorbing `none`. -/
def optMin (a b : Option Nat) : Option Nat :=
  match a, b with
  | none, b => b
  | some x, none => some x
  | some x, some y => some (min x y)

/-- Minimum of a list of instants, `none` when empty. -/
def minFold : List Nat → Option Nat
  | [] => none
  | x :: xs =>
    match minFold xs with
    | none => some x
    | some m => some (min x m)

/-- The scheduler's `schedule_next_(t0, acc, acc, ...)` call computes the
optional minimum of the accumulator and the task's next fire time. -/
theorem scheduleNext_eq_optMin (nextAfter : Nat → Option Nat) (t0 : Nat) (acc : Option Nat) :
    scheduleNext nextAfter t0 acc acc = optMin acc (nextAfter t0) := by
  cases hna : nextAfter t0 with
  | none => cases acc <;> simp [scheduleNext, optMin, hna]
  | some t =>
      cases acc with
      | none => simp [scheduleNext, optMin, hna]
      | some b =>
          simp only [scheduleNext, optMin, hna]
          by_cases h : t < b
          · simp only [if_pos h]
            congr 1
            omega
          · simp only [if_neg h]
            congr 1
            omega

/-- Folding the optional minimum over a list equals the minimum of its
collected values. -/
theorem foldl_optMin (f : CheckTask → Option Nat) (l : List CheckTask) :
    ∀ acc, l.foldl (fun acc task => optMin acc (f task)) acc =
      optMin acc (minFold (l.filterMap f)) := by
  induction l with
  | nil =>
      intro acc
      cases acc <;> simp [minFold, optMin]
  | cons hd tl ih =>
      intro acc
      simp only [List.foldl_cons]
      rw [ih]
      cases hf : f hd with
      | none =>
          simp only [List.filterMap_cons, hf]
          cases acc <;> simp [optMin]
      | some v =>
          simp only [List.filterMap_cons, hf]
          cases hm : minFold (tl.filterMap f) with
          | none =>
              simp only [minFold, hm]
              cases acc <;> simp [optMin]
          | some m =>
              simp only [minFold, hm]
              cases acc <;> simp [optMin, Nat.min_assoc]

/-- The minimum of a list is one of its members. -/
theorem minFold_mem {l : List Nat} {m : Nat} (h : minFold l = some m) : m ∈ l := by
  induction l with
  | nil => simp [minFold] at h
  | cons x xs ih =>
      cases hm : minFold xs with
      | none =>
          simp only [minFold, hm, Option.some.injEq] at h
          simp [← h]
      | some k =>
          simp only [minFold, hm, Option.some.injEq] at h
          rcases min_choice x k with hc | hc
          · rw [hc] at h
            simp [← h]
          · rw [hc] at h
            rw [h] at hm
            exact List.mem_cons_of_mem x (ih hm)

/-- C7: after the check, `next_check` equals the minimum over all
configured tasks of the next fire time strictly after `time_check` (each
searched within a one-year window), and when no task has such a fire
time it equals `time_check` plus one year (365 days in seconds). -/
theorem nextCheck_is_min (tasks : List CheckTask) (timeCheck : Nat)
    (hfire : ∀ task ∈ tasks, ∀ v, task.nextAfter timeCheck = some v → timeCheck < v) :
    nextCheck tasks timeCheck =
      (match minFold (tasks.filterMap (fun task => task.nextAfter timeCheck)) with
       | some m => m
       | none => timeCheck + 60 * 60 * 24 * 365) := by
  have hfold : nextCheckTasks tasks timeCheck =
      minFold (tasks.filterMap (fun task => task.nextAfter timeCheck)) := by
    unfold nextCheckTasks
    have hfun : (fun (acc : Option Nat) (task : CheckTask) =>
        scheduleNext task.nextAfter timeCheck acc acc) =
        fun acc task => optMin acc (task.nextAfter timeCheck) := by
      funext acc task
      exact scheduleNext_eq_optMin task.nextAfter timeCheck acc
    rw [hfun, foldl_optMin (fun task => task.nextAfter timeCheck) tasks none]
    cases minFold (tasks.filterMap fun task => task.nextAfter timeCheck) <;> simp [optMin]
  unfold nextCheck
  rw [hfold]
  cases hm : minFold (tasks.filterMap fun task => task.nextAfter timeCheck) with
  | none => rfl
  | some m =>
      have hmem := minFold_mem hm
      obtain ⟨task, htask, hv⟩ := List.mem_filterMap.mp hmem
      have hgt := hfire task htask m hv
      have hm0 : ¬ m = 0 := by omega
      simp [hm0, nextMax]

/-- C7 witness: one task firing at 105 and one with no fire time within
the window, checked at 100. -/
theorem nextCheck_is_min_witness :
    nextCheck [⟨"a", fun t => some (t + 5)⟩, ⟨"b", fun _ => none⟩] 100 = 105 := by
  have h := nextCheck_is_min [⟨"a", fun t => some (t + 5)⟩, ⟨"b", fun _ => none⟩] 100 ?_
  · rw [h]
    rfl
  · intro task hmem v hv
    simp only [List.mem_cons, List.not_mem_nil, or_false] at hmem
    rcases hmem with rfl | rfl
    · simp only [Option.some.injEq] at hv
      omega
    · simp at hv

/-! ### `TaskScheduler.path_state`: state directory naming and migration -/

/-- Value of a hexadecimal digit as accepted by Python's `int(s, 16)`
(both cases); non-hex characters contribute 0 (an MD5 hex digest never
contains any). -/
def hexDigitVal (c : Char) : Nat :=
  if '0' ≤ c ∧ c ≤ '9' then c.toNat - '0'.toNat
  else if 'a' ≤ c ∧ c ≤ 'f' then 10 + (c.toNat - 'a'.toNat)
  else if 'A' ≤ c ∧ c ≤ 'F' then 10 + (c.toNat - 'A'.toNat)
  else 0

/-- Python's `int(s, 16)` over a hex-digit string. -/
def hexVal (s : String) : Nat :=
  s.toList.foldl (fun acc c => 16 * acc + hexDigitVal c) 0

/-- Python's `name.rsplit('-', 1)[-1]`: the text after the final `-`,
or the whole string when it contains none. -/
def hashTail (name : String) : String :=
  String.mk (((name.toList.reverse).takeWhile (fun c => c != '-')).reverse)

/-- An entry of the state-root directory as seen by
`self.conf._prefix_.state.iterdir()`: its base name and whether it is a
directory. -/
structure StateEntry where
  name : String
  isDir : Bool
deriving DecidableEq

/-- Action `path_state` takes on the file system: the computed path
already existed; a stale directory (same hash, different tag) was
renamed onto the computed path, with any further matches logged and
ignored; or a fresh directory (with its `conf/` subdirectory) was
initialized. -/
inductive StateDirAction where
  | already : StateDirAction
  | migrate (stale : String) (extraStale : List String) : StateDirAction
  | fresh : StateDirAction
deriving DecidableEq

/-- Python's `sorted` over strings (ascending, by code point). -/
def insertSorted (x : String) : List String → List String
  | [] => [x]
  | y :: ys => if x ≤ y then x :: y :: ys else y :: insertSorted x ys

/-- Insertion sort realizing `sorted(paths)`. -/
def sortStrings (l : List String) : List String :=
  l.foldr insertSorted []

/-- Embedding of `TaskScheduler.path_state`, parametrized over the
external MD5 implementation (`hashlib.md5(...).hexdigest()`) and the
`animals` name list (`fate.util.animals`, a nonempty word list whose
content the logic never inspects). The configuration-path signature is
the `os.pathsep`-join of the sorted conf paths; the friendly tag is
`animals[int(hash, 16) % len(animals)]`; when the computed path does not
exist, existing state directories are matched solely on the hash
component after the final `-` of their base name: the first match is
renamed onto the computed path, and only when there is none is a fresh
directory initialized. -/
def pathStateResolve (md5hex : String → String) (animals : List String) (stateRoot : String)
    (confPaths : List String) (targetExists : Bool) (existing : List StateEntry) :
    String × StateDirAction :=
  let signature := String.intercalate ":" (sortStrings confPaths)
  let fileHash := md5hex signature
  let nameIndex := hexVal fileHash % animals.length
  let tag := animals.getD nameIndex ""
  let pathState := stateRoot ++ "/" ++ tag ++ "-" ++ fileHash
  if targetExists then (pathState, .already)
  else
    match (existing.filter (fun e => e.isDir)).filter (fun e => hashTail e.name == fileHash) with
    | [] => (pathState, .fresh)
    | collision :: extras => (pathState, .migrate collision.name (extras.map (fun e => e.name)))

/-- C9: the state directory path is
`<stateRoot>/<animals[int(md5hex, 16) % len(animals)]>-<md5hex>` with
`md5hex` the digest of the pathsep-joined sorted configuration paths;
and when that path does not exist but some existing state directory's
name carries the same hash component after its final `-`, that directory
is migrated (the action is a rename of a hash-matching directory) rather
than a fresh directory being initialized — the hash alone, never the
tag, identifies the directory. -/
theorem pathState_spec (md5hex : String → String) (animals : List String)
    (stateRoot : String) (confPaths : List String) (existing : List StateEntry)
    (entry : StateEntry) (hmem : entry ∈ existing) (hdir : entry.isDir = true)
    (hhash : hashTail entry.name = md5hex (String.intercalate ":" (sortStrings confPaths))) :
    (pathStateResolve md5hex animals stateRoot confPaths false existing).1 =
      stateRoot ++ "/" ++
        animals.getD
          (hexVal (md5hex (String.intercalate ":" (sortStrings confPaths))) % animals.length)
          "" ++
        "-" ++ md5hex (String.intercalate ":" (sortStrings confPaths)) ∧
    (∃ stale extras,
      (pathStateResolve md5hex animals stateRoot confPaths false existing).2 =
        StateDirAction.migrate stale extras ∧
      hashTail stale = md5hex (String.intercalate ":" (sortStrings confPaths))) ∧
    (pathStateResolve md5hex animals stateRoot confPaths false existing).2 ≠
      StateDirAction.fresh := by
  have hentry : entry ∈ (existing.filter (fun e => e.isDir)).filter
      (fun e => hashTail e.name == md5hex (String.intercalate ":" (sortStrings confPaths))) := by
    rw [List.mem_filter, List.mem_filter]
    exact ⟨⟨hmem, hdir⟩, by simp [hhash]⟩
  cases hfilter : (existing.filter (fun e => e.isDir)).filter
      (fun e => hashTail e.name == md5hex (String.intercalate ":" (sortStrings confPaths))) with
  | nil =>
      rw [hfilter] at hentry
      simp at hentry
  | cons collision extras =>
      have hcol : hashTail collision.name =
          md5hex (String.intercalate ":" (sortStrings confPaths)) := by
        have : collision ∈ (existing.filter (fun e => e.isDir)).filter
            (fun e => hashTail e.name == md5hex (String.intercalate ":" (sortStrings confPaths))) := by
          rw [hfilter]
          exact List.mem_cons_self collision extras
        rw [List.mem_filter] at this
        simpa using this.2
      refine ⟨?_, ⟨collision.name, extras.map (fun e => e.name), ?_, hcol⟩, ?_⟩
      · simp only [pathStateResolve, if_neg (by simp : ¬ (false = true)), hfilter]
      · simp only [pathStateResolve, if_neg (by simp : ¬ (false = true)), hfilter]
      · simp only [pathStateResolve, if_neg (by simp : ¬ (false = true)), hfilter]
        simp

/-- C9 witness: two conf paths hashing (under a stand-in digest
function) to `"ab"`, a two-animal list picking tag index
`171 % 2 = 1`, and one stale directory `zebra-ab` that is migrated. -/
theorem pathState_spec_witness :
    (pathStateResolve (fun _ => "ab") ["cat", "dog"] "/var/lib/fate" ["b", "a"] false
        [⟨"zebra-ab", true⟩]).1 = "/var/lib/fate/dog-ab" ∧
    (pathStateResolve (fun _ => "ab") ["cat", "dog"] "/var/lib/fate" ["b", "a"] false
        [⟨"zebra-ab", true⟩]).2 ≠ StateDirAction.fresh := by
  have h := pathState_spec (fun _ => "ab") ["cat", "dog"] "/var/lib/fate" ["b", "a"]
      [⟨"zebra-ab", true⟩] ⟨"zebra-ab", true⟩ (by simp) rfl (by decide)
  refine ⟨?_, h.2.2⟩
  rw [h.1]
  decide

/-! ### `TaskMap.result_`: result file naming and format auto-detection -/

/-- The `SLoader` members of conf/format.py, in definition order. -/
inductive SLoaderMember where
  | csv : SLoaderMember
  | json : SLoaderMember
  | toml : SLoaderMember
  | yaml : SLoaderMember
deriving DecidableEq

/-- The `@auto` tag of conf/format.py: set on `json`, `toml` and `yaml`;
`csv` is untagged. -/
def SLoaderMember.auto : SLoaderMember → Bool
  | .csv => false
  | .json => true
  | .toml => true
  | .yaml => true

/-- Embedding of `FileFormatEnum.suffix`: a dot followed by the member's
name. -/
def SLoaderMember.suffix : SLoaderMember → String
  | .csv => ".csv"
  | .json => ".json"
  | .toml => ".toml"
  | .yaml => ".yaml"

/-- Enum iteration order of `SLoader`. -/
def sloaderMembers : List SLoaderMember :=
  [.csv, .json, .toml, .yaml]

/-- Embedding of `SLoader.__auto__`: the members tagged `@auto`, in
definition order. -/
def sloaderAuto : List SLoaderMember :=
  sloaderMembers.filter SLoaderMember.auto

/-- Outcome of invoking an `SLoader` member on a given stdout text: the
loader raised one of its registered exceptions; it parsed the text to a
plain string document; or it parsed it to any other (non-string)
document. `result_` inspects nothing else about the parse. -/
inductive ParseOutcome where
  | failure : ParseOutcome
  | strValue : ParseOutcome
  | docValue : ParseOutcome
deriving DecidableEq

/-- Embedding of the `format_ == 'auto'` loop of `TaskMap.result_`: try
the `__auto__` loaders in order; a raised exception falls through; a
parse to a string document is skipped (the source's
`isinstance(result, str)` guard); the first non-string parse breaks with
that loader; when the loop never breaks, no loader is chosen. -/
def autoDetect (parse : SLoaderMember → ParseOutcome) :
    List SLoaderMember → Option SLoaderMember
  | [] => none
  | m :: rest =>
    match parse m with
    | .docValue => some m
    | _ => autoDetect parse rest

/-- The resolved `format.result` value as it reaches the cascade of
`result_`: falsy, the string `'auto'`, or a validated member name. -/
inductive ResultFormatConf where
  | empty : ResultFormatConf
  | auto : ResultFormatConf
  | named (m : SLoaderMember) : ResultFormatConf

/-- Embedding of the loader-selection cascade of `TaskMap.result_`: no
format → no loader; `auto` → the probing loop over `__auto__`; a named
format → that loader, dropped when it raises on the stdout. -/
def chooseLoader (conf : ResultFormatConf) (parse : SLoaderMember → ParseOutcome) :
    Option SLoaderMember :=
  match conf with
  | .empty => none
  | .auto => autoDetect parse sloaderAuto
  | .named m =>
    match parse m with
    | .failure => none
    | _ => some m

/-- Index of the last `.` of a list of characters, if any. -/
def lastDotIdx : List Char → Option Nat
  | [] => none
  | c :: rest =>
    match lastDotIdx rest with
    | some i => some (i + 1)
    | none => if c = '.' then some 0 else none

/-- Embedding of Python `PurePath.with_suffix` on a final path
component: when the name carries a suffix (a final `.` that is neither
leading nor trailing), that suffix is replaced; otherwise the new suffix
is appended. -/
def withSuffix (name sfx : List Char) : List Char :=
  match lastDotIdx name with
  | some i => if 0 < i ∧ i < name.length - 1 then name.take i ++ sfx else name ++ sfx
  | none => name ++ sfx

/-- Embedding of `TaskMap.result_` (conf/types/task.py), parametrized by
the parse outcome of the stdout under each loader (the external json,
toml and yaml libraries) and by the rendered timestamp strings
(`f'{dt.timestamp():.0f}'` and `dt.strftime('%Y%m%dT%H%M%S')`, external
datetime formatting). Returns the result file path:
`identifier.with_suffix(loader.suffix)` when a loader was chosen, the
bare identifier otherwise. -/
def resultPath (resultDir taskName stamp datestr : String)
    (conf : ResultFormatConf) (parse : SLoaderMember → ParseOutcome) : String :=
  let base := "result-" ++ stamp ++ "-" ++ datestr ++ "-" ++ taskName
  match chooseLoader conf parse with
  | some loader => resultDir ++ "/" ++ String.mk (withSuffix base.toList loader.suffix.toList)
  | none => resultDir ++ "/" ++ base

/-- The probe formats asserted by the claim, in the claim's priority
order: JSON, YAML, TOML, TAR, TAR.GZ. -/
inductive SpecProbeFormat where
  | json : SpecProbeFormat
  | yaml : SpecProbeFormat
  | toml : SpecProbeFormat
  | tar : SpecProbeFormat
  | targz : SpecProbeFormat
deriving DecidableEq

/-- Formalization of the claim's words, for comparison with the code:
the extension is the suffix of the first format in the claim's probe
order that successfully parses the stdout (none when none parses). -/
def specAutoSuffix (parses : SpecProbeFormat → Bool) : Option String :=
  ([SpecProbeFormat.json, .yaml, .toml, .tar, .targz].find? parses).map
    (fun f => match f with
      | .json => ".json"
      | .yaml => ".yaml"
      | .toml => ".toml"
      | .tar => ".tar"
      | .targz => ".tar.gz")

/-- C6 counterexample: for the stdout `"[x]\n"` — a valid non-string
TOML document (a table header) and a valid non-string YAML document (a
flow sequence) but not valid JSON, TAR or TAR.GZ — the code's probe
order JSON, TOML, YAML chooses `.toml`, while the claim's order JSON,
YAML, TOML, TAR, TAR.GZ chooses `.yaml`: the claim is false at this
input. -/
theorem resultPath_auto_order_counterexample :
    resultPath "/r" "t" "100" "19700101T000140" ResultFormatConf.auto
      (fun m => match m with
        | SLoaderMember.toml => ParseOutcome.docValue
        | SLoaderMember.yaml => ParseOutcome.docValue
        | _ => ParseOutcome.failure) =
      "/r/result-100-19700101T000140-t.toml" ∧
    specAutoSuffix (fun f => match f with
        | SpecProbeFormat.yaml => true
        | SpecProbeFormat.toml => true
        | _ => false) = some ".yaml" ∧
    (".toml" : String) ≠ ".yaml" := by
  decide

/-- The probing loop selects the first auto member — JSON, TOML, YAML in
that order — whose parse yields a non-string document. -/
theorem autoDetect_eq_find (parse : SLoaderMember → ParseOutcome) :
    autoDetect parse sloaderAuto =
      [SLoaderMember.json, SLoaderMember.toml, SLoaderMember.yaml].find?
        (fun m => parse m == ParseOutcome.docValue) := by
  have hlist : sloaderAuto = [SLoaderMember.json, SLoaderMember.toml, SLoaderMember.yaml] := by
    decide
  rw [hlist]
  cases hj : parse SLoaderMember.json <;>
    cases ht : parse SLoaderMember.toml <;>
      cases hy : parse SLoaderMember.yaml <;>
        simp [autoDetect, List.find?, hj, ht, hy] <;> rfl

/-- The suffix index of a list is a position within it. -/
theorem lastDotIdx_lt : ∀ {l : List Char} {i : Nat}, lastDotIdx l = some i → i < l.length := by
  intro l
  induction l with
  | nil =>
      intro i h
      simp [lastDotIdx] at h
  | cons c rest ih =>
      intro i h
      simp only [lastDotIdx] at h
      split at h
      next j hj =>
        simp only [Option.some.injEq] at h
        have := ih hj
        simp only [List.length_cons]
        omega
      next hj =>
        by_cases hc : c = '.'
        · simp [hc] at h
          simp only [List.length_cons]
          omega
        · simp [hc] at h

/-- Prepending a dot-free list shifts the suffix index. -/
theorem lastDotIdx_append {a b : List Char} (h : '.' ∉ a) :
    lastDotIdx (a ++ b) = (lastDotIdx b).map (fun i => a.length + i) := by
  induction a with
  | nil =>
      simp only [List.nil_append, List.length_nil]
      cases lastDotIdx b <;> simp
  | cons c rest ih =>
      simp only [List.mem_cons, not_or] at h
      have hc : ¬ (c = '.') := fun hh => h.1 hh.symm
      simp only [List.cons_append, lastDotIdx, List.append_eq]
      rw [ih h.2]
      cases lastDotIdx b with
      | none => simp [hc]
      | some i =>
          simp only [Option.map_some, Option.map_some', List.length_cons, Option.some.injEq]
          omega

/-- Python `with_suffix` on a name `pre ++ tn` whose head part `pre` is
nonempty and dot-free: when `tn` carries an internal dot that is not its
final character, everything from that dot on is replaced by the new
suffix; otherwise the suffix is appended. -/
theorem withSuffix_append_structure {pre tn sfx : List Char}
    (hpre : '.' ∉ pre) (hpos : 0 < pre.length) :
    withSuffix (pre ++ tn) sfx =
      (match lastDotIdx tn with
       | none => (pre ++ tn) ++ sfx
       | some i =>
         if i + 1 < tn.length then (pre ++ tn.take i) ++ sfx else (pre ++ tn) ++ sfx) := by
  unfold withSuffix
  rw [lastDotIdx_append hpre]
  cases hb : lastDotIdx tn with
  | none => simp
  | some i =>
      simp only [Option.map_some, Option.map_some']
      have hi : i < tn.length := lastDotIdx_lt hb
      by_cases hcond : i + 1 < tn.length
      · have h1 : 0 < pre.length + i ∧ pre.length + i < (pre ++ tn).length - 1 := by
          simp only [List.length_append]
          omega
        rw [if_pos h1, if_pos hcond]
        congr 1
        rw [List.take_append_eq_append_take]
        congr 1
        · exact List.take_of_length_le (by omega)
        · congr 1
          omega
      · have h1 : ¬ (0 < pre.length + i ∧ pre.length + i < (pre ++ tn).length - 1) := by
          simp only [List.length_append, not_and, not_lt]
          intro _
          omega
        rw [if_neg h1, if_neg hcond]

/-- Rebuilding a string from the concatenated character lists of two
strings concatenates the strings. -/
theorem string_mk_append (a b : String) : String.mk (a.toList ++ b.toList) = a ++ b := by
  cases a
  cases b
  rfl

/-- The character list of a concatenation is the concatenation of the
character lists. -/
theorem string_toList_append (a b : String) : (a ++ b).toList = a.toList ++ b.toList := by
  cases a
  cases b
  rfl

/-- Appending a rebuilt string is rebuilding the appended lists. -/
theorem string_append_mk (a : String) (l : List Char) :
    a ++ String.mk l = String.mk (a.toList ++ l) := by
  cases a
  rfl

/-- Appending a string to a rebuilt string is rebuilding the appended
lists. -/
theorem string_mk_append_string (l : List Char) (b : String) :
    String.mk l ++ b = String.mk (l ++ b.toList) := by
  cases b
  rfl

/-- The character list of a rebuilt string is the original list. -/
theorem string_toList_mk (l : List Char) : (String.mk l).toList = l :=
  rfl

/-- Appending the empty string is the identity. -/
theorem string_append_empty (a : String) : a ++ "" = a := by
  cases a with
  | mk l =>
      show String.mk (l ++ []) = String.mk l
      rw [List.append_nil]

/-- C6 (amended): for a completed task with `path.result` enabled, the
result file path is
`<resultDir>/result-<unixTimestamp>-<YYYYMMDDTHHMMSS>-<taskName><extension>`,
where under `format.result == 'auto'` the extension is the suffix of the
first format among JSON, TOML, YAML — in that priority order — that
parses the stdout to a non-string document, and there is no extension
when none does; the extension is attached with `Path.with_suffix`, so
when the task name carries an internal, non-final dot, the name's final
dot-segment is replaced by the extension instead of the extension being
appended. (The timestamp and date renders — digits and `T` — contain no
dot, the only hypotheses below.) -/
theorem resultPath_auto (resultDir taskName stamp datestr : String)
    (parse : SLoaderMember → ParseOutcome)
    (hstamp : '.' ∉ stamp.toList) (hdate : '.' ∉ datestr.toList) :
    resultPath resultDir taskName stamp datestr ResultFormatConf.auto parse =
      resultDir ++ "/" ++
        (match ([SLoaderMember.json, SLoaderMember.toml, SLoaderMember.yaml].find?
            (fun m => parse m == ParseOutcome.docValue)), lastDotIdx taskName.toList with
         | none, _ =>
             "result-" ++ stamp ++ "-" ++ datestr ++ "-" ++ taskName
         | some m, none =>
             ("result-" ++ stamp ++ "-" ++ datestr ++ "-" ++ taskName) ++ m.suffix
         | some m, some i =>
             if i + 1 < taskName.toList.length then
               ("result-" ++ stamp ++ "-" ++ datestr ++ "-" ++
                 String.mk (taskName.toList.take i)) ++ m.suffix
             else
               ("result-" ++ stamp ++ "-" ++ datestr ++ "-" ++ taskName) ++ m.suffix) := by
  have hpre : '.' ∉ ("result-" ++ stamp ++ "-" ++ datestr ++ "-").toList := by
    simp only [string_toList_append, List.mem_append, not_or]
    exact ⟨⟨⟨⟨by decide, hstamp⟩, by decide⟩, hdate⟩, by decide⟩
  have hpos : 0 < ("result-" ++ stamp ++ "-" ++ datestr ++ "-").toList.length := by
    simp only [string_toList_append, List.length_append]
    have : ("-" : String).toList.length = 1 := by decide
    omega
  unfold resultPath chooseLoader
  rw [autoDetect_eq_find]
  cases hf : [SLoaderMember.json, SLoaderMember.toml, SLoaderMember.yaml].find?
      (fun m => parse m == ParseOutcome.docValue) with
  | none =>
      simp only []
  | some m =>
      simp only []
      rw [show ("result-" ++ stamp ++ "-" ++ datestr ++ "-" ++ taskName).toList =
            ("result-" ++ stamp ++ "-" ++ datestr ++ "-").toList ++ taskName.toList from
          string_toList_append ("result-" ++ stamp ++ "-" ++ datestr ++ "-") taskName]
      rw [withSuffix_append_structure hpre hpos]
      cases hd : lastDotIdx taskName.toList with
      | none =>
          simp only []
          rw [← string_toList_append, string_mk_append]
      | some i =>
          simp only []
          by_cases hcond : i + 1 < taskName.toList.length
          · rw [if_pos hcond, if_pos hcond]
            simp only [string_append_mk, string_mk_append_string, string_toList_mk,
              string_toList_append]
          · rw [if_neg hcond, if_neg hcond]
            rw [← string_toList_append, string_mk_append]

/-- C6 witness: with every probe failing, the result file keeps its bare
identifier with no extension; with a probe succeeding and a dotted task
name `a.b`, `with_suffix` replaces the dot-segment, yielding
`result-100-d-a.json`. -/
theorem resultPath_auto_witness :
    resultPath "/res" "mytask" "0" "d" ResultFormatConf.auto (fun _ => ParseOutcome.failure) =
      "/res/result-0-d-mytask" ∧
    resultPath "/r" "a.b" "100" "d" ResultFormatConf.auto (fun _ => ParseOutcome.docValue) =
      "/r/result-100-d-a.json" := by
  have h1 := resultPath_auto "/res" "mytask" "0" "d" (fun _ => ParseOutcome.failure)
      (by decide) (by decide)
  have h2 := resultPath_auto "/r" "a.b" "100" "d" (fun _ => ParseOutcome.docValue)
      (by decide) (by decide)
  refine ⟨?_, ?_⟩
  · rw [h1]
    rfl
  · rw [h2]
    rfl
